import Mathlib

/-!
Shallow embedding of the async-trait expansion engine (`src/expand.rs`).

The engine rewrites `async fn` methods of a trait definition or of an impl
block into ordinary methods returning `Pin<Box<dyn Future<Output = T> + …>>`.
Rust syntax trees are embedded as plain inductive types; the in-place
mutations of the source become pure functions returning the rewritten value.
Lifetimes are represented by their names without the leading tick, so the
Rust lifetime `'async_trait` appears here as the string `"async_trait"`.

Helper modules of the repository that are not part of the provided source
(`lifetime.rs`, `receiver.rs`, `parse.rs`) are modelled from the spec; each
such definition carries a doc comment starting with `Modelled from the spec:`.
-/

namespace AsyncTrait

/-- A Rust lifetime, identified by its name without the leading tick. -/
abbrev Lifetime := String

/-- A bound inside the generated trait object
`dyn Future<Output = _> + bound₁ + bound₂`: either `::core::marker::Send`
or an outlives bound on a lifetime. -/
inductive FutureBound where
  | send : FutureBound
  | outlives (lt : Lifetime) : FutureBound
  deriving DecidableEq, Repr

/-- A Rust type, with just enough structure for the transformation:
references carry an optional lifetime (none = elided) and a mutability flag;
`path0` is a path type (e.g. `i32`, `T`) with optional lifetime arguments
(none = the elided `'_`); `app` models generic application such as
`Vec<T>`; `selfTy` is the `Self` keyword type; `pinBoxDynFuture out bounds`
is the generated `::core::pin::Pin<Box<dyn ::core::future::Future<Output =
out> + bounds>>` return type. -/
inductive Ty where
  | ref (lt : Option Lifetime) (isMut : Bool) (inner : Ty) : Ty
  | path0 (name : String) (lts : List (Option Lifetime)) : Ty
  | app (base : Ty) (arg : Ty) : Ty
  | selfTy : Ty
  | pinBoxDynFuture (out : Ty) (bounds : List FutureBound) : Ty
  deriving DecidableEq, Repr

/-- The unit type `()`, used when a signature has no explicit return type. -/
def unitTy : Ty := Ty.path0 "()" []

/-- A pattern in a parameter position. `ident` is a `PatIdent` with its
`by_ref` and `mut` flags; `tuple` stands for a destructuring pattern such
as `(a, b)` binding the listed names; `wild` is `_`. -/
inductive Pat where
  | ident (byRef : Bool) (isMut : Bool) (name : String) : Pat
  | tuple (names : List String) : Pat
  | wild : Pat
  deriving DecidableEq, Repr

/-- Is the pattern a `PatIdent`?  (`transform_sig` keeps such patterns and
replaces every other pattern by a positional placeholder.) -/
def Pat.isIdent : Pat → Bool
  | Pat.ident _ _ _ => true
  | _ => false

/-- A function argument: either a receiver (`self`, `&self`, `&'a mut self`,
with `reference = none` for the owned form and `some lt` for a reference
with optional lifetime `lt`) or a typed pattern argument `pat : ty`. -/
inductive FnArg where
  | receiver (reference : Option (Option Lifetime)) (isMut : Bool) : FnArg
  | typed (pat : Pat) (ty : Ty) : FnArg
  deriving DecidableEq, Repr

/-- A generic parameter of a signature, trait or impl: a type parameter, a
lifetime parameter, or a const parameter (identified by name). -/
inductive GenericParam where
  | type (name : String) : GenericParam
  | lifetime (lt : Lifetime) : GenericParam
  | const (name : String) : GenericParam
  deriving DecidableEq, Repr

/-- A supertrait bound of a trait definition: a trait bound given by its
path segments, or a lifetime bound. -/
inductive TypeParamBound where
  | traitBound (path : List String) : TypeParamBound
  | lifetimeBound (lt : Lifetime) : TypeParamBound
  deriving DecidableEq, Repr

/-- A where-clause predicate generated (or already present) in a signature:
`typeOutlives n l` is `n: 'l`; `lifetimeOutlives a l` is `'a: 'l`;
`selfOutlives l` is `Self: 'l`; `selfMarkerOutlives m l` is
`Self: ::core::marker::m + 'l`. -/
inductive WherePredicate where
  | typeOutlives (name : String) (lt : Lifetime) : WherePredicate
  | lifetimeOutlives (l : Lifetime) (lt : Lifetime) : WherePredicate
  | selfOutlives (lt : Lifetime) : WherePredicate
  | selfMarkerOutlives (marker : String) (lt : Lifetime) : WherePredicate
  deriving DecidableEq, Repr

/-- A method signature: name, `async` flag, generic parameters (the
`generics.params` of syn), inputs, optional return type (`none` is
`ReturnType::Default`), and the optional where clause. -/
structure Signature where
  ident : String
  asyncness : Bool
  genericParams : List GenericParam
  inputs : List FnArg
  output : Option Ty
  whereClause : Option (List WherePredicate)
  deriving DecidableEq, Repr

/-! ### Decimal rendering of indices

`positional_arg` in the source builds the identifier `__arg{i}` with
`format_ident!`, i.e. the decimal rendering of `i`.  The formatter is part
of an external crate, so its decimal rendering is modelled here by a
fuel-based digit loop (most-significant digit first), mirroring how the
standard decimal formatter works. -/

/-- One step of decimal rendering: prepend the digits of `n` (most
significant first) to `acc`; `fuel` bounds the recursion depth. -/
def natDecCore : Nat → Nat → List Char → List Char
  | 0, _, acc => acc
  | fuel + 1, n, acc =>
    let d := Nat.digitChar (n % 10)
    let m := n / 10
    if m = 0 then d :: acc else natDecCore fuel m (d :: acc)

/-- Decimal rendering of a natural number, e.g. `natDecimal 12 = "12"`. -/
def natDecimal (n : Nat) : String := ⟨natDecCore (n + 1) n []⟩

/-- The numeric value of a decimal digit character. -/
def charVal (c : Char) : Nat := c.toNat - 48

/-- Parse a list of decimal digit characters (most significant first). -/
def parseDec (l : List Char) : Nat := l.foldl (fun a c => 10 * a + charVal c) 0

/-- `positional_arg` from the source: the placeholder identifier
`__arg{i}` for the parameter at index `i`. -/
def positional_arg (i : Nat) : String := "__arg" ++ natDecimal i

/-! ### Free-variable collection over lifetimes -/

/-- Modelled from the spec: the Free-Variable Collector of the missing
`lifetime.rs` (§4.1).  It walks a type or receiver, records every explicit
lifetime (ordered, deduplicated) and, for every position with no explicit
lifetime, synthesizes a fresh sequentially-numbered name from the fixed
prefix (`'life` in `transform_sig`, `'impl` in `expand`), rewriting the
position in place to use it. -/
structure CollectLifetimes where
  pfx : String
  explicit : List Lifetime
  elided : List Lifetime
  deriving DecidableEq, Repr

/-- Modelled from the spec: a fresh collector with the given prefix. -/
def CollectLifetimes.new (pfx : String) : CollectLifetimes :=
  { pfx := pfx, explicit := [], elided := [] }

/-- Modelled from the spec: visiting one lifetime position.  An explicit
lifetime is recorded (deduplicated) and kept; an elided position receives
the next sequentially-numbered fresh name, which is recorded as elided. -/
def CollectLifetimes.visitOptLifetime (s : CollectLifetimes) :
    Option Lifetime → CollectLifetimes × Lifetime
  | some lt =>
    if lt ∈ s.explicit then (s, lt)
    else ({ s with explicit := s.explicit ++ [lt] }, lt)
  | none =>
    let fresh := s.pfx ++ natDecimal s.elided.length
    ({ s with elided := s.elided ++ [fresh] }, fresh)

/-- Modelled from the spec: visiting a list of lifetime positions in order. -/
def CollectLifetimes.visitOptLifetimes (s : CollectLifetimes) :
    List (Option Lifetime) → CollectLifetimes × List (Option Lifetime)
  | [] => (s, [])
  | o :: rest =>
    let (s1, l1) := s.visitOptLifetime o
    let (s2, rest1) := s1.visitOptLifetimes rest
    (s2, some l1 :: rest1)

/-- Modelled from the spec: the recursive traversal over a type, visiting
every lifetime position (references and path lifetime arguments). -/
def CollectLifetimes.visitType (s : CollectLifetimes) : Ty → CollectLifetimes × Ty
  | Ty.ref lt isMut inner =>
    let (s1, lt1) := s.visitOptLifetime lt
    let (s2, inner1) := s1.visitType inner
    (s2, Ty.ref (some lt1) isMut inner1)
  | Ty.path0 name lts =>
    let (s1, lts1) := s.visitOptLifetimes lts
    (s1, Ty.path0 name lts1)
  | Ty.app base arg =>
    let (s1, base1) := s.visitType base
    let (s2, arg1) := s1.visitType arg
    (s2, Ty.app base1 arg1)
  | Ty.selfTy => (s, Ty.selfTy)
  | Ty.pinBoxDynFuture out bounds =>
    let (s1, out1) := s.visitType out
    (s1, Ty.pinBoxDynFuture out1 bounds)

/-- Modelled from the spec: visiting one function argument, as
`transform_sig` does — the receiver's reference lifetime for a receiver,
the type of a typed argument (the pattern is untouched). -/
def CollectLifetimes.visitArg (s : CollectLifetimes) : FnArg → CollectLifetimes × FnArg
  | FnArg.receiver none isMut => (s, FnArg.receiver none isMut)
  | FnArg.receiver (some lt) isMut =>
    let (s1, lt1) := s.visitOptLifetime lt
    (s1, FnArg.receiver (some (some lt1)) isMut)
  | FnArg.typed pat ty =>
    let (s1, ty1) := s.visitType ty
    (s1, FnArg.typed pat ty1)

/-- The loop of `transform_sig` that runs the collector over every input
argument in order, threading the collector state. -/
def collectInputs (s : CollectLifetimes) : List FnArg → CollectLifetimes × List FnArg
  | [] => (s, [])
  | a :: rest =>
    let (s1, a1) := s.visitArg a
    let (s2, rest1) := collectInputs s1 rest
    (s2, a1 :: rest1)

/-! ### The signature transformer -/

/-- The transformation context (`Context` in the source): a trait
definition with its generics and supertraits, or an impl block with its
generics. -/
inductive Context where
  | traitCtx (generics : List GenericParam) (supertraits : List TypeParamBound) : Context
  | implCtx (implGenerics : List GenericParam) : Context
  deriving DecidableEq, Repr

/-- `Context::lifetimes` from the source: the context's lifetime generic
parameters whose lifetime occurs in `used`. -/
def Context.lifetimesUsed (c : Context) (used : List Lifetime) : List GenericParam :=
  (match c with
    | Context.traitCtx generics _ => generics
    | Context.implCtx implGenerics => implGenerics).filter fun param =>
    match param with
    | GenericParam.lifetime l => used.contains l
    | _ => false

/-- `has_bound` from the source: does the supertrait list contain a trait
bound whose path is exactly the single-segment identifier `marker`? -/
def has_bound (supertraits : List TypeParamBound) (marker : String) : Bool :=
  supertraits.any fun bound =>
    match bound with
    | TypeParamBound.traitBound path => path == [marker]
    | _ => false

/-- The `let bound: Ident = match sig.inputs.iter().next() { … }` of
`transform_sig`: `Sync` for an immutable-reference receiver or a typed
first parameter that is `self` of immutable reference type, `Send`
otherwise. -/
def chosenMarker : List FnArg → String
  | FnArg.receiver (some _) false :: _ => "Sync"
  | FnArg.typed (Pat.ident _ _ n) (Ty.ref _ false _) :: _ =>
    if n == "self" then "Sync" else "Send"
  | _ => "Send"

/-- The per-parameter predicate pushed by the where-clause loop of
`transform_sig`: type and lifetime parameters are bound to outlive
`'async_trait`; const parameters produce nothing. -/
def predOf : GenericParam → Option WherePredicate
  | GenericParam.type n => some (WherePredicate.typeOutlives n "async_trait")
  | GenericParam.lifetime l => some (WherePredicate.lifetimeOutlives l "async_trait")
  | GenericParam.const _ => none

/-- `enumerate` over a list, starting at index `i` (the
`.iter().enumerate()` of the source). -/
def enumFrom (i : Nat) : List α → List (Nat × α)
  | [] => []
  | a :: rest => (i, a) :: enumFrom (i + 1) rest

/-- Modelled from the spec: `mut_pat` of the missing `receiver.rs`,
supplying the mutability of the normalized positional placeholder.  §4.4
step 8 specifies that every parameter pattern is normalized to a simple,
non-by-reference, non-mutable binding name, so no mutability is produced. -/
def mut_pat (_p : Pat) : Bool := false

/-- The pattern-normalization loop of `transform_sig` (one argument at
index `i`): reference receivers are untouched; an owned receiver loses its
mutability; a `PatIdent` pattern loses `by_ref` and `mut`; any other
pattern is replaced by the positional placeholder `__arg{i}`. -/
def normalizeArg (i : Nat) : FnArg → FnArg
  | FnArg.receiver (some r) isMut => FnArg.receiver (some r) isMut
  | FnArg.receiver none _ => FnArg.receiver none false
  | FnArg.typed pat ty =>
    match pat with
    | Pat.ident _ _ n => FnArg.typed (Pat.ident false false n) ty
    | p => FnArg.typed (Pat.ident false (mut_pat p) (positional_arg i)) ty

/-- `transform_sig` from the source.  In required order: drop the `async`
marker; record the output type; run the lifetime collector over the
inputs; extend the where clause with one outlives predicate per signature
generic parameter (consts skipped) and per used context lifetime, then one
per elided lifetime; declare the elided lifetimes and `'async_trait` as
generic parameters; if `has_self`, push the `Self` predicate; normalize
parameter patterns; rewrite the return type to the boxed pinned future. -/
def transform_sig (context : Context) (sig : Signature)
    (has_self has_default is_local : Bool) : Signature :=
  let ret := match sig.output with
    | none => unitTy
    | some t => t
  let collected := collectInputs (CollectLifetimes.new "life") sig.inputs
  let lifetimes := collected.1
  let inputs1 := collected.2
  let basePreds := match sig.whereClause with
    | none => []
    | some ps => ps
  let preds1 := basePreds ++
    (sig.genericParams ++ context.lifetimesUsed lifetimes.explicit).filterMap predOf
  let preds2 := preds1 ++
    lifetimes.elided.map fun l => WherePredicate.lifetimeOutlives l "async_trait"
  let params1 := sig.genericParams ++ lifetimes.elided.map GenericParam.lifetime
  let params2 := params1 ++ [GenericParam.lifetime "async_trait"]
  let preds3 :=
    if has_self then
      let bound := chosenMarker inputs1
      let assume_bound := match context with
        | Context.traitCtx _ supertraits => !has_default || has_bound supertraits bound
        | Context.implCtx _ => true
      preds2 ++ [if assume_bound || is_local then
          WherePredicate.selfOutlives "async_trait"
        else
          WherePredicate.selfMarkerOutlives bound "async_trait"]
    else preds2
  let inputs2 := (enumFrom 0 inputs1).map fun p => normalizeArg p.1 p.2
  let bounds := if is_local then [FutureBound.outlives "async_trait"]
    else [FutureBound.send, FutureBound.outlives "async_trait"]
  { sig with
    asyncness := false
    genericParams := params2
    inputs := inputs2
    whereClause := some preds3
    output := some (Ty.pinBoxDynFuture ret bounds) }

/-! ### Statements, expressions and the body transformer -/

mutual
/-- An expression, with just enough structure for the generated code:
a plain identifier, the generated `Box::pin(async move { … })` wrapper,
and a braced block expression `{ … }`. -/
inductive Expr where
  | var (name : String) : Expr
  | boxPinAsyncMove (stmts : List Stmt) : Expr
  | blockExpr (stmts : List Stmt) : Expr

/-- A statement.  `itemVerbatim` is `Stmt::Item(Item::Verbatim(_))` (the
`;` stub of a bodiless trait method); `original` is an opaque statement of
the user's method body, kept as its token strings; `letIdent` is
`let [mut] name[: ty] [= init];`; `letPat` is `let pat = init;`;
`exprStmt` is an expression statement carrying its attributes. -/
inductive Stmt where
  | itemVerbatim (tokens : String) : Stmt
  | original (tokens : List String) : Stmt
  | letIdent (isMut : Bool) (name : String) (ty : Option Ty) (init : Option Expr) : Stmt
  | letPat (pat : Pat) (init : Expr) : Stmt
  | exprStmt (attrs : List String) (e : Expr) : Stmt
end

/-- A method body: its list of statements. -/
structure Block where
  stmts : List Stmt

/-- The stub test at the head of `transform_block`: is the body exactly
one verbatim item statement whose tokens render as `;`? -/
def isStubBody : List Stmt → Bool
  | [Stmt.itemVerbatim s] => s == ";"
  | _ => false

/-- The per-parameter re-binding declaration generated by
`transform_block` for the argument at index `i`: the receiver is re-bound
as `let [mut] __self = self;`; a parameter named `self` in non-receiver
position is re-bound to the same prefixed name; an ordinary named
parameter is re-bound to itself; any other pattern is bound to the
positional placeholder `__arg{i}`. -/
def declOf (i : Nat) : FnArg → Stmt
  | FnArg.receiver _ isMut =>
    Stmt.letIdent isMut "__self" none (some (Expr.var "self"))
  | FnArg.typed pat _ =>
    match pat with
    | Pat.ident _ isMut n =>
      if n == "self" then Stmt.letIdent isMut "__self" none (some (Expr.var "self"))
      else Stmt.letIdent isMut n none (some (Expr.var n))
    | p => Stmt.letPat p (Expr.var (positional_arg i))

/-- The `self_span` side effect of the declaration loop in
`transform_block`: a span is recorded exactly when some argument is a
receiver or a typed parameter whose pattern binds the name `self`. -/
def hasSelfParamIn (inputs : List FnArg) : Bool :=
  inputs.any fun a =>
    match a with
    | FnArg.receiver _ _ => true
    | FnArg.typed (Pat.ident _ _ n) _ => n == "self"
    | _ => false

/-- Modelled from the spec: the token substitution of `ReplaceSelf` from
the missing `receiver.rs` (§4.3) — every occurrence of the receiver
identifier and of the `Self` keyword is renamed to the private prefixed
name (prefix `__`). -/
def replaceSelfToken (t : String) : String :=
  if t == "self" then "__self" else if t == "Self" then "__Self" else t

/-- Modelled from the spec: `ReplaceSelf` applied to one statement —
a hygienic in-place substitution over the body's tokens; generated
statements contain no bare receiver tokens and are unchanged. -/
def replaceSelfStmt : Stmt → Stmt
  | Stmt.original tokens => Stmt.original (tokens.map replaceSelfToken)
  | s => s

/-- `transform_block` from the source.  A stub body (a single verbatim
`;`) is returned untouched.  Otherwise the parameter re-binding
declarations are generated in order; if a receiver (or a parameter named
`self`) exists, `ReplaceSelf` rewrites the body; and the block becomes the
single statement `Box::pin(async move { let __ret: ret_ty = { decls;
let __async_trait: (); original stmts }; #[allow(unreachable_code)]
__ret })`. -/
def transform_block (sig : Signature) (block : Block) : Block :=
  if isStubBody block.stmts then block
  else
    let decls := (enumFrom 0 sig.inputs).map fun p => declOf p.1 p.2
    let stmts1 := if hasSelfParamIn sig.inputs then block.stmts.map replaceSelfStmt
      else block.stmts
    let ret_ty := match sig.output with
      | none => unitTy
      | some t => t
    { stmts := [Stmt.exprStmt [] (Expr.boxPinAsyncMove [
        Stmt.letIdent false "__ret" (some ret_ty) (some (Expr.blockExpr
          (decls ++ [Stmt.letIdent false "__async_trait" (some unitTy) none] ++ stmts1))),
        Stmt.exprStmt ["allow(unreachable_code)"] (Expr.var "__ret")])] }

/-! ### Self-usage detection (modelled) -/

/-- Modelled from the spec: does a type mention the `Self` keyword? -/
def tyHasSelf : Ty → Bool
  | Ty.selfTy => true
  | Ty.ref _ _ inner => tyHasSelf inner
  | Ty.app base arg => tyHasSelf base || tyHasSelf arg
  | Ty.path0 _ _ => false
  | Ty.pinBoxDynFuture out _ => tyHasSelf out

/-- Modelled from the spec: does a pattern bind or mention `self`? -/
def patHasSelf : Pat → Bool
  | Pat.ident _ _ n => n == "self"
  | Pat.tuple names => names.contains "self"
  | Pat.wild => false

/-- Modelled from the spec: `has_self_in_sig` of the missing
`receiver.rs` (§4.2) — does the signature's parameter list reference the
receiver or `Self`? -/
def has_self_in_sig (sig : Signature) : Bool :=
  sig.inputs.any fun a =>
    match a with
    | FnArg.receiver _ _ => true
    | FnArg.typed pat ty => patHasSelf pat || tyHasSelf ty

/-- Modelled from the spec: does one statement reference the receiver or
`Self`?  Opaque original statements are inspected through their tokens. -/
def stmtHasSelf : Stmt → Bool
  | Stmt.original tokens => tokens.contains "self" || tokens.contains "Self"
  | _ => false

/-- Modelled from the spec: `has_self_in_block` of the missing
`receiver.rs` (§4.2) — does the body reference the receiver or `Self`? -/
def has_self_in_block (b : Block) : Bool :=
  b.stmts.any stmtHasSelf

/-! ### Items and the dispatcher -/

/-- A method of a trait definition: attributes (kept as rendered strings),
signature, and optional default body. -/
structure TraitItemMethod where
  attrs : List String
  sig : Signature
  default : Option Block

/-- An item of a trait definition: a method, or any other kind of item
(opaque, untouched by the dispatcher). -/
inductive TraitItem where
  | method (m : TraitItemMethod) : TraitItem
  | other (tag : Nat) : TraitItem

/-- A trait definition: generics, supertraits, items. -/
structure ItemTrait where
  generics : List GenericParam
  supertraits : List TypeParamBound
  items : List TraitItem

/-- A method of an impl block: attributes, signature, mandatory body. -/
structure ImplItemMethod where
  attrs : List String
  sig : Signature
  block : Block

/-- An item of an impl block: a method, or any other kind of item. -/
inductive ImplItem where
  | method (m : ImplItemMethod) : ImplItem
  | other (tag : Nat) : ImplItem

/-- The implemented-trait path of an impl block, with its lifetime
argument positions (for the `'impl` lifetime collection). -/
structure TraitPath where
  name : String
  lts : List (Option Lifetime)

/-- An impl block: generics, self type, optional implemented-trait
reference (`trait_` in syn, `None` for an inherent impl), items. -/
structure ItemImpl where
  generics : List GenericParam
  self_ty : Ty
  traitRef : Option TraitPath
  items : List ImplItem

/-- An input item: a trait definition or an impl block. -/
inductive Item where
  | traitItem (t : ItemTrait) : Item
  | implItem (i : ItemImpl) : Item

/-- The trait-method arm of `expand`: for an `async` method, compute
`has_self` from the signature (and from the default body when present),
transform the default body and attach the clippy-suppression attribute,
then transform the signature with `has_default` and attach `must_use`. -/
def expandTraitMethod (generics : List GenericParam)
    (supertraits : List TypeParamBound) (is_local : Bool)
    (m : TraitItemMethod) : TraitItemMethod :=
  if m.sig.asyncness then
    let hs0 := has_self_in_sig m.sig
    match m.default with
    | some b =>
      let hs := hs0 || has_self_in_block b
      let b1 := transform_block m.sig b
      let attrs1 := m.attrs ++ ["allow(clippy::used_underscore_binding)"]
      let sig1 := transform_sig (Context.traitCtx generics supertraits) m.sig hs true is_local
      { attrs := attrs1 ++ ["must_use"], sig := sig1, default := some b1 }
    | none =>
      let sig1 := transform_sig (Context.traitCtx generics supertraits) m.sig hs0 false is_local
      { attrs := m.attrs ++ ["must_use"], sig := sig1, default := none }
  else m

/-- The impl-method arm of `expand`: for an `async` method, compute
`has_self` from signature and body, transform the body, transform the
signature with `has_default = false`, and attach the clippy-suppression
attribute. -/
def expandImplMethod (generics : List GenericParam) (is_local : Bool)
    (m : ImplItemMethod) : ImplItemMethod :=
  if m.sig.asyncness then
    let hs := has_self_in_sig m.sig || has_self_in_block m.block
    let b1 := transform_block m.sig m.block
    let sig1 := transform_sig (Context.implCtx generics) m.sig hs false is_local
    { attrs := m.attrs ++ ["allow(clippy::used_underscore_binding)"],
      sig := sig1, block := b1 }
  else m

/-- Modelled from the spec together with the source's
`visit_path_mut` call: the `'impl` lifetime collector visiting the
implemented-trait path's lifetime positions. -/
def CollectLifetimes.visitTraitPath (s : CollectLifetimes) (p : TraitPath) :
    CollectLifetimes × TraitPath :=
  let (s1, lts1) := s.visitOptLifetimes p.lts
  (s1, { p with lts := lts1 })

/-- `expand` from the source.  For a trait definition, every `async`
method is rewritten in place.  For an impl block, the `'impl` lifetime
collector first visits the self type, then the implemented-trait path —
whose absence is the `unwrap` panic, modelled as `none`, reached before
any method is rewritten — the elided lifetimes are prepended to the
impl's generics, and every `async` method is rewritten against that
context. -/
def expand (input : Item) (is_local : Bool) : Option Item :=
  match input with
  | Item.traitItem t =>
    some (Item.traitItem { t with
      items := t.items.map fun it =>
        match it with
        | TraitItem.method m =>
          TraitItem.method (expandTraitMethod t.generics t.supertraits is_local m)
        | other => other })
  | Item.implItem imp =>
    let cl0 := CollectLifetimes.new "impl"
    let (cl1, selfTy1) := cl0.visitType imp.self_ty
    match imp.traitRef with
    | none => none
    | some tr =>
      let (cl2, tr1) := cl1.visitTraitPath tr
      let generics1 := cl2.elided.map GenericParam.lifetime ++ imp.generics
      some (Item.implItem {
        generics := generics1
        self_ty := selfTy1
        traitRef := some tr1
        items := imp.items.map fun it =>
          match it with
          | ImplItem.method m => ImplItem.method (expandImplMethod generics1 is_local m)
          | other => other })

/-! ### Projections and concrete scenarios used by the verification -/

/-- Is a generic parameter a const parameter? -/
def GenericParam.isConst : GenericParam → Bool
  | GenericParam.const _ => true
  | _ => false

/-- Projection: the signature of the `i`-th item of an expanded trait
item, when that item is a method. -/
def traitMethodSigAt (it : Option Item) (i : Nat) : Option Signature :=
  match it with
  | some (Item.traitItem t) =>
    match t.items.get? i with
    | some (TraitItem.method m) => some m.sig
    | _ => none
  | _ => none

/-- Projection: the where-clause predicates of an optional signature. -/
def wherePredsOf (s : Option Signature) : List WherePredicate :=
  match s with
  | some sig => sig.whereClause.getD []
  | none => []

/-- Projection: the binding name of the pattern of the `i`-th parameter of
an optional signature, when that parameter is a typed identifier pattern. -/
def paramPatName (s : Option Signature) (i : Nat) : Option String :=
  match s with
  | some sig =>
    match sig.inputs.get? i with
    | some (FnArg.typed (Pat.ident _ _ n) _) => some n
    | _ => none
  | none => none

/-- The signature of `async fn get(&self) -> i32;`. -/
def getSig : Signature :=
  { ident := "get"
    asyncness := true
    genericParams := []
    inputs := [FnArg.receiver (some none) false]
    output := some (Ty.path0 "i32" [])
    whereClause := none }

/-- The trait `trait T { async fn get(&self) -> i32; }` (no default body). -/
def getTrait : ItemTrait :=
  { generics := []
    supertraits := []
    items := [TraitItem.method { attrs := [], sig := getSig, default := none }] }

/-- A signature with a destructuring second parameter:
`async fn dup(&self, (a, b): AB)`. -/
def dupSig (name : String) : Signature :=
  { ident := name
    asyncness := true
    genericParams := []
    inputs := [FnArg.receiver (some none) false,
               FnArg.typed (Pat.tuple ["a", "b"]) (Ty.path0 "AB" [])]
    output := none
    whereClause := none }

/-- A trait with two distinct methods whose parameter pattern shapes
collide: both have a destructuring pattern at parameter index 1. -/
def collidingTrait : ItemTrait :=
  { generics := []
    supertraits := []
    items := [TraitItem.method { attrs := [], sig := dupSig "f1", default := none },
              TraitItem.method { attrs := [], sig := dupSig "f2", default := none }] }

/-- A signature carrying a const generic parameter:
`async fn f<const N: usize>(&self);`. -/
def constParamSig : Signature :=
  { ident := "f"
    asyncness := true
    genericParams := [GenericParam.const "N"]
    inputs := [FnArg.receiver (some none) false]
    output := none
    whereClause := none }

/-- An impl block with no implemented-trait reference (an inherent impl). -/
def inherentImpl : ItemImpl :=
  { generics := []
    self_ty := Ty.path0 "S" []
    traitRef := none
    items := [] }

/-- An impl block with an implemented-trait reference. -/
def traitImpl : ItemImpl :=
  { generics := []
    self_ty := Ty.path0 "S" []
    traitRef := some { name := "Tr", lts := [] }
    items := [ImplItem.method
      { attrs := []
        sig := getSig
        block := { stmts := [Stmt.original ["self", ".", "g", "(", ")"]] } }] }

/-- The `assume_bound` computation of `transform_sig`: in a trait context
the marker may be assumed when the method has no default body or the
supertraits already carry the marker; in an impl context it is always
assumed. -/
def assumeBound (context : Context) (hd : Bool) (bound : String) : Bool :=
  match context with
  | Context.traitCtx _ supertraits => !hd || has_bound supertraits bound
  | Context.implCtx _ => true

/-- The where-clause predicates of `transform_sig` that precede the
optional `Self` predicate: the signature's own predicates, then one
predicate per generic parameter of the signature and per used context
lifetime (consts skipped), then one per elided lifetime. -/
def sigBasePreds (context : Context) (sig : Signature) : List WherePredicate :=
  (match sig.whereClause with | none => [] | some ps => ps) ++
    (sig.genericParams ++ context.lifetimesUsed
      (collectInputs (CollectLifetimes.new "life") sig.inputs).1.explicit).filterMap predOf ++
    (collectInputs (CollectLifetimes.new "life") sig.inputs).1.elided.map
      fun l => WherePredicate.lifetimeOutlives l "async_trait"

/-- The `Self` predicate pushed by `transform_sig` when `has_self` holds. -/
def selfPredOf (context : Context) (sig : Signature) (hd il : Bool) : WherePredicate :=
  if assumeBound context hd (chosenMarker sig.inputs) || il then
    WherePredicate.selfOutlives "async_trait"
  else WherePredicate.selfMarkerOutlives (chosenMarker sig.inputs) "async_trait"

/-! ### Helper lemmas: decimal rendering is injective -/

theorem natDecCore_acc (fuel : Nat) : ∀ (n : Nat) (acc : List Char),
    natDecCore fuel n acc = natDecCore fuel n [] ++ acc := by
  induction fuel with
  | zero => intro n acc; simp [natDecCore]
  | succ fuel ih =>
    intro n acc
    simp only [natDecCore]
    by_cases h : n / 10 = 0
    · simp [h]
    · simp only [if_neg h]
      rw [ih (n / 10) (Nat.digitChar (n % 10) :: acc),
        ih (n / 10) [Nat.digitChar (n % 10)]]
      simp

theorem natDecCore_fuel (n : Nat) : ∀ (f1 f2 : Nat) (acc : List Char), n < f1 → n < f2 →
    natDecCore f1 n acc = natDecCore f2 n acc := by
  induction n using Nat.strong_induction_on with
  | _ n ih =>
    intro f1 f2 acc h1 h2
    match f1, f2 with
    | g1 + 1, g2 + 1 =>
      simp only [natDecCore]
      by_cases h : n / 10 = 0
      · simp [h]
      · simp only [if_neg h]
        have hn : 0 < n := by
          rcases Nat.eq_zero_or_pos n with h0 | h0
          · subst h0; simp at h
          · exact h0
        have hlt : n / 10 < n := Nat.div_lt_self hn (by norm_num)
        exact ih (n / 10) hlt g1 g2 _ (by omega) (by omega)

theorem charVal_digitChar (k : Nat) (h : k < 10) : charVal (Nat.digitChar k) = k := by
  interval_cases k <;> decide

theorem parseDec_append (s : List Char) (d : Char) :
    parseDec (s ++ [d]) = 10 * parseDec s + charVal d := by
  simp [parseDec, List.foldl_append]

theorem parseDec_natDecCore (n : Nat) : parseDec (natDecCore (n + 1) n []) = n := by
  induction n using Nat.strong_induction_on with
  | _ n ih =>
    simp only [natDecCore]
    by_cases h : n / 10 = 0
    · have hlt : n < 10 := by omega
      simp only [if_pos h, parseDec, List.foldl]
      rw [charVal_digitChar _ (Nat.mod_lt _ (by norm_num))]
      omega
    · simp only [if_neg h]
      have hn : 0 < n := by
        rcases Nat.eq_zero_or_pos n with h0 | h0
        · subst h0; simp at h
        · exact h0
      have hlt : n / 10 < n := Nat.div_lt_self hn (by norm_num)
      rw [natDecCore_acc, natDecCore_fuel (n / 10) n (n / 10 + 1) [] hlt (Nat.lt_succ_self _)]
      rw [parseDec_append, ih (n / 10) hlt, charVal_digitChar _ (Nat.mod_lt _ (by norm_num))]
      omega

theorem natDecimal_inj {m n : Nat} (h : natDecimal m = natDecimal n) : m = n := by
  have hc : natDecCore (m + 1) m [] = natDecCore (n + 1) n [] := congrArg String.data h
  calc m = parseDec (natDecCore (m + 1) m []) := (parseDec_natDecCore m).symm
    _ = parseDec (natDecCore (n + 1) n []) := by rw [hc]
    _ = n := parseDec_natDecCore n

theorem positional_arg_inj {i j : Nat} (h : positional_arg i = positional_arg j) : i = j := by
  apply natDecimal_inj
  have hd : ("__arg".data ++ (natDecimal i).data) = ("__arg".data ++ (natDecimal j).data) := by
    have := congrArg String.data h
    simpa [positional_arg, String.data_append] using this
  have hdata : (natDecimal i).data = (natDecimal j).data := List.append_cancel_left hd
  cases hi : natDecimal i
  cases hj : natDecimal j
  rw [hi, hj] at hdata
  simp_all

/-! ### Helper lemmas: structure of the transformation -/

theorem chosenMarker_collectInputs (s : CollectLifetimes) (inputs : List FnArg) :
    chosenMarker (collectInputs s inputs).2 = chosenMarker inputs := by
  cases inputs with
  | nil => rfl
  | cons a rest =>
    cases a with
    | receiver r m =>
      cases r with
      | none => cases m <;> simp [collectInputs, CollectLifetimes.visitArg, chosenMarker]
      | some lt => cases m <;> simp [collectInputs, CollectLifetimes.visitArg, chosenMarker]
    | typed pat ty =>
      cases pat with
      | ident br pm n =>
        cases ty with
        | ref lt mu inner =>
          cases mu <;>
            simp [collectInputs, CollectLifetimes.visitArg, CollectLifetimes.visitType,
              chosenMarker]
        | path0 nm lts =>
          simp [collectInputs, CollectLifetimes.visitArg, CollectLifetimes.visitType,
            chosenMarker]
        | app b arg2 =>
          simp [collectInputs, CollectLifetimes.visitArg, CollectLifetimes.visitType,
            chosenMarker]
        | selfTy =>
          simp [collectInputs, CollectLifetimes.visitArg, CollectLifetimes.visitType,
            chosenMarker]
        | pinBoxDynFuture o bs =>
          simp [collectInputs, CollectLifetimes.visitArg, CollectLifetimes.visitType,
            chosenMarker]
      | tuple ns =>
        simp [collectInputs, CollectLifetimes.visitArg, chosenMarker]
      | wild =>
        simp [collectInputs, CollectLifetimes.visitArg, chosenMarker]

theorem collectInputs_append (s : CollectLifetimes) (l1 l2 : List FnArg) :
    collectInputs s (l1 ++ l2) =
      ((collectInputs (collectInputs s l1).1 l2).1,
       (collectInputs s l1).2 ++ (collectInputs (collectInputs s l1).1 l2).2) := by
  induction l1 generalizing s with
  | nil => simp [collectInputs]
  | cons a rest ih =>
    simp only [List.cons_append, collectInputs, List.append_eq]
    rw [ih]

theorem collectInputs_length (s : CollectLifetimes) (l : List FnArg) :
    (collectInputs s l).2.length = l.length := by
  induction l generalizing s with
  | nil => rfl
  | cons a rest ih => simp [collectInputs, ih]

theorem visitArg_typed (s : CollectLifetimes) (pat : Pat) (ty : Ty) :
    s.visitArg (FnArg.typed pat ty) =
      ((s.visitType ty).1, FnArg.typed pat (s.visitType ty).2) := by
  simp [CollectLifetimes.visitArg]

theorem enumFrom_get? (l : List α) : ∀ (i j : Nat),
    (enumFrom i l).get? j = (l.get? j).map fun a => (i + j, a) := by
  induction l with
  | nil => intro i j; simp [enumFrom]
  | cons a rest ih =>
    intro i j
    cases j with
    | zero => simp [enumFrom]
    | succ j =>
      simp only [enumFrom, List.get?_cons_succ, ih (i + 1) j]
      congr 1
      funext x
      simp
      omega

theorem filterMap_predOf_length (l : List GenericParam) :
    (l.filterMap predOf).length = (l.filter fun p => !p.isConst).length := by
  induction l with
  | nil => rfl
  | cons p rest ih =>
    cases p <;> simp [predOf, GenericParam.isConst, List.filterMap_cons, ih]

theorem transform_sig_whereClause (context : Context) (sig : Signature) (hs hd il : Bool) :
    (transform_sig context sig hs hd il).whereClause =
      some (sigBasePreds context sig ++
        (if hs then [selfPredOf context sig hd il] else [])) := by
  cases hs with
  | false => simp [transform_sig, sigBasePreds]
  | true =>
    simp [transform_sig, sigBasePreds, selfPredOf, assumeBound, chosenMarker_collectInputs]

theorem not_selfMarker_mem_filterMap (l : List GenericParam) (mk : String) (lt : Lifetime) :
    WherePredicate.selfMarkerOutlives mk lt ∉ l.filterMap predOf := by
  intro h
  rcases List.mem_filterMap.mp h with ⟨p, _, hp⟩
  cases p <;> simp [predOf] at hp

theorem collectInputs_get_middle (s : CollectLifetimes) (pre post : List FnArg) (x : FnArg) :
    (collectInputs s (pre ++ x :: post)).2.get? pre.length =
      some ((collectInputs s pre).1.visitArg x).2 := by
  rw [collectInputs_append]
  rw [List.get?_append_right (by rw [collectInputs_length])]
  simp [collectInputs_length, collectInputs]

theorem transform_block_nonstub (sig : Signature) (block : Block)
    (h : isStubBody block.stmts = false) :
    transform_block sig block = { stmts := [Stmt.exprStmt [] (Expr.boxPinAsyncMove [
      Stmt.letIdent false "__ret" (some (match sig.output with | none => unitTy | some t => t))
        (some (Expr.blockExpr (((enumFrom 0 sig.inputs).map fun p => declOf p.1 p.2)
          ++ [Stmt.letIdent false "__async_trait" (some unitTy) none]
          ++ (if hasSelfParamIn sig.inputs then block.stmts.map replaceSelfStmt
              else block.stmts)))),
      Stmt.exprStmt ["allow(unreachable_code)"] (Expr.var "__ret")])] } := by
  simp only [transform_block, h]
  rfl

/-! ### The claims -/

/-- Claim C1, counterexample: expanding `trait T { async fn get(&self) -> i32; }`
in non-local mode yields the where clause `'life0: 'async_trait, Self:
'async_trait` — the `Self` predicate does NOT carry the `Sync` marker,
because a trait method without a default body takes the `assume_bound`
branch of `transform_sig`. -/
theorem c1_counterexample :
    wherePredsOf (traitMethodSigAt (expand (Item.traitItem getTrait) false) 0) =
      [WherePredicate.lifetimeOutlives "life0" "async_trait",
       WherePredicate.selfOutlives "async_trait"] ∧
    WherePredicate.selfMarkerOutlives "Sync" "async_trait" ∉
      wherePredsOf (traitMethodSigAt (expand (Item.traitItem getTrait) false) 0) := by
  constructor
  · decide
  · decide

/-- Claim C1, amended: expanding `trait T { async fn get(&self) -> i32; }`
in non-local mode yields exactly the signature `fn get<'life0, 'async_trait>
(&'life0 self) -> Pin<Box<dyn Future<Output = i32> + Send + 'async_trait>>
where 'life0: 'async_trait, Self: 'async_trait` — as the claim states except
that the `Self` predicate is the bare outlives predicate, without `Sync`. -/
theorem c1_theorem :
    traitMethodSigAt (expand (Item.traitItem getTrait) false) 0 = some
      { ident := "get"
        asyncness := false
        genericParams := [GenericParam.lifetime "life0", GenericParam.lifetime "async_trait"]
        inputs := [FnArg.receiver (some (some "life0")) false]
        output := some (Ty.pinBoxDynFuture (Ty.path0 "i32" [])
          [FutureBound.send, FutureBound.outlives "async_trait"])
        whereClause := some [WherePredicate.lifetimeOutlives "life0" "async_trait",
          WherePredicate.selfOutlives "async_trait"] } := by
  decide

/-- Claim C7, counterexample: in a trait with two distinct methods that both
have a destructuring pattern at parameter index 1, the two transformed
signatures receive the SAME synthesized placeholder name `__arg1` — a
synthesized name is shared across the two methods, refuting the claim. -/
theorem c7_counterexample :
    paramPatName (traitMethodSigAt (expand (Item.traitItem collidingTrait) false) 0) 1 =
      some "__arg1" ∧
    paramPatName (traitMethodSigAt (expand (Item.traitItem collidingTrait) false) 1) 1 =
      some "__arg1" := by
  constructor
  · decide
  · decide

/-- Claim C7, amended: the synthesized placeholder name depends only on the
parameter index (`positional_arg` is injective in the index, so names are
fresh within one method), and two methods with colliding parameter pattern
shapes in the same item receive identical — not distinct — placeholder
names; the names are method-local, so the sharing is harmless. -/
theorem c7_theorem :
    (∀ i j : Nat, positional_arg i = positional_arg j ↔ i = j) ∧
    paramPatName (traitMethodSigAt (expand (Item.traitItem collidingTrait) false) 0) 1 =
      paramPatName (traitMethodSigAt (expand (Item.traitItem collidingTrait) false) 1) 1 := by
  constructor
  · intro i j
    constructor
    · exact positional_arg_inj
    · intro h; rw [h]
  · decide

/-- Claim C8: a body consisting of exactly one verbatim `;` statement (a
trait method stub) is returned by `transform_block` completely unchanged. -/
theorem c8_theorem (sig : Signature) (block : Block)
    (h : block.stmts = [Stmt.itemVerbatim ";"]) :
    transform_block sig block = block := by
  simp [transform_block, isStubBody, h]

/-- Claim C8, witness: the stub body is left untouched on a concrete input. -/
theorem c8_witness :
    ({ stmts := [Stmt.itemVerbatim ";"] } : Block).stmts = [Stmt.itemVerbatim ";"] ∧
    transform_block getSig { stmts := [Stmt.itemVerbatim ";"] } =
      { stmts := [Stmt.itemVerbatim ";"] } :=
  ⟨rfl, c8_theorem getSig { stmts := [Stmt.itemVerbatim ";"] } rfl⟩

/-- Claim C9: `expand` on an impl block without an implemented-trait
reference fails (the modelled `unwrap` aborts, yielding `none`) before any
method is rewritten; with the reference present this check never fails and
the expansion produces a result. -/
theorem c9_theorem (imp : ItemImpl) (il : Bool) :
    (imp.traitRef = none → expand (Item.implItem imp) il = none) ∧
    (imp.traitRef ≠ none → (expand (Item.implItem imp) il).isSome = true) := by
  rcases hv : (CollectLifetimes.new "impl").visitType imp.self_ty with ⟨cl1, st1⟩
  constructor
  · intro h
    simp [expand, hv, h]
  · intro h
    rcases htr : imp.traitRef with _ | tr
    · exact absurd htr h
    · rcases hp : cl1.visitTraitPath tr with ⟨cl2, tr1⟩
      simp [expand, hv, htr, hp]

/-- Claim C9, witness: an inherent impl aborts the expansion; an impl with
a trait reference expands successfully. -/
theorem c9_witness :
    (inherentImpl.traitRef = none ∧ expand (Item.implItem inherentImpl) false = none) ∧
    (traitImpl.traitRef ≠ none ∧ (expand (Item.implItem traitImpl) false).isSome = true) := by
  refine ⟨⟨rfl, (c9_theorem inherentImpl false).1 rfl⟩,
    ⟨by simp [traitImpl], (c9_theorem traitImpl false).2 (by simp [traitImpl])⟩⟩

/-- Claim C2: for an asynchronous trait method with a default body that
references `Self` or the receiver (`has_self = true`, `has_default = true`),
transformed in non-local mode, the last where-clause predicate is exactly
`Self: 'async_trait` when the supertrait list already contains the required
thread-safety marker, and `Self: ::core::marker::<marker> + 'async_trait`
when it does not. -/
theorem c2_theorem (g : List GenericParam) (st : List TypeParamBound) (sig : Signature) :
    ∃ ps, (transform_sig (Context.traitCtx g st) sig true true false).whereClause =
      some (ps ++ [if has_bound st (chosenMarker sig.inputs) then
          WherePredicate.selfOutlives "async_trait"
        else WherePredicate.selfMarkerOutlives (chosenMarker sig.inputs) "async_trait"]) := by
  refine ⟨sigBasePreds (Context.traitCtx g st) sig, ?_⟩
  rw [transform_sig_whereClause]
  simp [selfPredOf, assumeBound]

/-- Claim C3: the thread-safety marker chosen by `transform_sig` is `Sync`
for an immutable-reference receiver and for a typed first parameter named
`self` of immutable reference type, and `Send` for a mutable-reference or
owned receiver; moreover any marker appearing in a synthesized `Self`
predicate (for a signature without a pre-existing where clause) is exactly
the marker chosen from the inputs, tied to the `'async_trait` lifetime. -/
theorem c3_theorem (rest : List FnArg) (o : Option Lifetime) :
    chosenMarker (FnArg.receiver (some o) false :: rest) = "Sync" ∧
    (∀ (br pm : Bool) (lt : Option Lifetime) (t : Ty),
      chosenMarker (FnArg.typed (Pat.ident br pm "self") (Ty.ref lt false t) :: rest) =
        "Sync") ∧
    chosenMarker (FnArg.receiver (some o) true :: rest) = "Send" ∧
    (∀ m : Bool, chosenMarker (FnArg.receiver none m :: rest) = "Send") ∧
    (∀ (g : List GenericParam) (st : List TypeParamBound) (sig : Signature)
        (hs hd il : Bool) (mk : String) (lt : Lifetime),
      sig.whereClause = none →
      WherePredicate.selfMarkerOutlives mk lt ∈
        ((transform_sig (Context.traitCtx g st) sig hs hd il).whereClause.getD []) →
      mk = chosenMarker sig.inputs ∧ lt = "async_trait") := by
  refine ⟨rfl, ?_, rfl, ?_, ?_⟩
  · intro br pm lt t
    simp [chosenMarker]
  · intro m
    rfl
  · intro g st sig hs hd il mk lt hwc hmem
    rw [transform_sig_whereClause, Option.getD_some] at hmem
    rcases List.mem_append.mp hmem with hbase | hlast
    · exfalso
      rw [sigBasePreds, hwc] at hbase
      rcases List.mem_append.mp hbase with hbase1 | helid
      · rcases List.mem_append.mp hbase1 with hnil | hfm
        · simp at hnil
        · exact absurd hfm (not_selfMarker_mem_filterMap _ _ _)
      · rcases List.mem_map.mp helid with ⟨l0, _, hl0⟩
        simp at hl0
    · cases hhs : hs with
      | false => rw [hhs] at hlast; simp at hlast
      | true =>
        rw [hhs] at hlast
        simp only [if_true] at hlast
        rcases List.mem_singleton.mp hlast with h
        rw [selfPredOf] at h
        by_cases hb : (assumeBound (Context.traitCtx g st) hd (chosenMarker sig.inputs)
            || il) = true
        · rw [if_pos hb] at h
          simp at h
        · rw [if_neg hb] at h
          have := h.symm
          injection this with h1 h2
          exact ⟨h1.symm, h2.symm⟩

/-- Claim C3, witness: at a concrete signature (`&self` receiver, no
pre-existing where clause, default body, no supertrait marker) the
synthesized marker predicate carries exactly the chosen marker `Sync`. -/
theorem c3_witness :
    chosenMarker [FnArg.receiver (some none) false] = "Sync" ∧
    ("Sync" = chosenMarker getSig.inputs ∧ "async_trait" = "async_trait") :=
  ⟨(c3_theorem [] none).1,
   (c3_theorem [] none).2.2.2.2 [] [] getSig true true false "Sync" "async_trait" rfl
     (by decide)⟩

/-- Claim C4: in local mode the rewritten return type's trait-object bound
set is exactly the existential lifetime `'async_trait` — no `Send` — and
the `Self` predicate, when one is added, is the bare `Self: 'async_trait`. -/
theorem c4_theorem (context : Context) (sig : Signature) (hs hd : Bool) :
    (∃ ret, (transform_sig context sig hs hd true).output =
        some (Ty.pinBoxDynFuture ret [FutureBound.outlives "async_trait"])) ∧
    (∃ ps, (transform_sig context sig true hd true).whereClause =
        some (ps ++ [WherePredicate.selfOutlives "async_trait"])) := by
  constructor
  · exact ⟨(match sig.output with | none => unitTy | some t => t), rfl⟩
  · refine ⟨sigBasePreds context sig, ?_⟩
    rw [transform_sig_whereClause]
    simp [selfPredOf, assumeBound]

/-- Claim C5, counterexample: for `async fn f<const N: usize>(&self);` the
transformed where clause contains NO predicate for the const generic
parameter `N` — `transform_sig` skips const parameters, refuting
"including const generic parameters". -/
theorem c5_counterexample :
    (transform_sig (Context.traitCtx [] []) constParamSig true false false).whereClause =
      some [WherePredicate.lifetimeOutlives "life0" "async_trait",
            WherePredicate.selfOutlives "async_trait"] ∧
    WherePredicate.typeOutlives "N" "async_trait" ∉
      (transform_sig (Context.traitCtx [] [])
        constParamSig true false false).whereClause.getD [] := by
  constructor
  · decide
  · decide

/-- Claim C5, amended: after transformation the asyncness marker is absent,
the return type is the boxed-pinned-future type, the generic parameter list
ends with the synthesized `'async_trait` lifetime, and the where clause is
present with exactly one outlives predicate per non-const in-scope generic
parameter (const generic parameters receive none), plus one per freshly
introduced elided lifetime, plus conditionally one constraining `Self`, on
top of the signature's pre-existing predicates. -/
theorem c5_theorem (context : Context) (sig : Signature) (hs hd il : Bool) :
    (transform_sig context sig hs hd il).asyncness = false ∧
    (∃ ret bounds, (transform_sig context sig hs hd il).output =
        some (Ty.pinBoxDynFuture ret bounds)) ∧
    (transform_sig context sig hs hd il).genericParams.getLast? =
      some (GenericParam.lifetime "async_trait") ∧
    (∃ ps, (transform_sig context sig hs hd il).whereClause = some ps ∧
      ps.length = (match sig.whereClause with | none => 0 | some qs => qs.length)
        + ((sig.genericParams ++ context.lifetimesUsed
            (collectInputs (CollectLifetimes.new "life") sig.inputs).1.explicit).filter
              fun p => !p.isConst).length
        + (collectInputs (CollectLifetimes.new "life") sig.inputs).1.elided.length
        + (if hs then 1 else 0)) := by
  refine ⟨rfl, ⟨(match sig.output with | none => unitTy | some t => t), _, rfl⟩, ?_, ?_⟩
  · show ((sig.genericParams ++ (collectInputs (CollectLifetimes.new "life")
        sig.inputs).1.elided.map GenericParam.lifetime)
        ++ [GenericParam.lifetime "async_trait"]).getLast? =
      some (GenericParam.lifetime "async_trait")
    exact List.getLast?_concat _
  · refine ⟨_, transform_sig_whereClause context sig hs hd il, ?_⟩
    simp only [sigBasePreds, List.length_append, filterMap_predOf_length, List.length_map]
    cases hs with
    | false =>
      cases sig.whereClause <;> simp
    | true =>
      cases sig.whereClause <;> simp

/-- Claim C6: a typed parameter at index `i` with a destructuring
(non-identifier) pattern becomes, in the transformed signature, a plain
non-by-reference non-mutable binding of the placeholder `__arg{i}`; the
transformed body contains the binding `let <pattern> = __arg{i};` at
declaration position `i` and at no other position, and all of the
re-binding declarations precede the original statements inside the
generated async block. -/
theorem c6_theorem (ctx : Context) (sig : Signature) (block : Block) (hs hd il : Bool)
    (pre post : List FnArg) (pat : Pat) (ty : Ty)
    (hinputs : sig.inputs = pre ++ FnArg.typed pat ty :: post)
    (hpat : pat.isIdent = false)
    (hstub : isStubBody block.stmts = false) :
    (∃ ty1, (transform_sig ctx sig hs hd il).inputs.get? pre.length =
        some (FnArg.typed (Pat.ident false false (positional_arg pre.length)) ty1)) ∧
    (((enumFrom 0 sig.inputs).map fun p => declOf p.1 p.2).get? pre.length =
      some (Stmt.letPat pat (Expr.var (positional_arg pre.length)))) ∧
    (∀ j, (((enumFrom 0 sig.inputs).map fun p => declOf p.1 p.2).get? j =
        some (Stmt.letPat pat (Expr.var (positional_arg pre.length)))) → j = pre.length) ∧
    (∃ tail, (transform_block sig block).stmts = [Stmt.exprStmt [] (Expr.boxPinAsyncMove [
        Stmt.letIdent false "__ret"
          (some (match sig.output with | none => unitTy | some t => t))
          (some (Expr.blockExpr (((enumFrom 0 sig.inputs).map fun p => declOf p.1 p.2)
            ++ [Stmt.letIdent false "__async_trait" (some unitTy) none] ++ tail))),
        Stmt.exprStmt ["allow(unreachable_code)"] (Expr.var "__ret")])] ∧
      tail.length = block.stmts.length) := by
  have hty : (collectInputs (CollectLifetimes.new "life") sig.inputs).2.get? pre.length =
      some ((collectInputs (CollectLifetimes.new "life") pre).1.visitArg
        (FnArg.typed pat ty)).2 := by
    rw [hinputs]
    exact collectInputs_get_middle _ _ _ _
  refine ⟨?_, ?_, ?_, ?_⟩
  · refine ⟨((collectInputs (CollectLifetimes.new "life") pre).1.visitType ty).2, ?_⟩
    show (((enumFrom 0 (collectInputs (CollectLifetimes.new "life") sig.inputs).2).map
        fun p => normalizeArg p.1 p.2).get? pre.length) = _
    rw [List.get?_map, enumFrom_get?, hty, visitArg_typed]
    cases pat with
    | ident br mu n => simp [Pat.isIdent] at hpat
    | tuple ns => simp [normalizeArg, mut_pat]
    | wild => simp [normalizeArg, mut_pat]
  · rw [List.get?_map, enumFrom_get?, hinputs,
      List.get?_append_right (Nat.le_refl _)]
    simp only [Nat.sub_self, List.get?_cons_zero, Option.map_some', Nat.zero_add]
    cases pat with
    | ident br mu n => simp [Pat.isIdent] at hpat
    | tuple ns => simp [declOf]
    | wild => simp [declOf]
  · intro j hj
    rw [List.get?_map, enumFrom_get?] at hj
    rcases Option.map_eq_some'.mp hj with ⟨p, hp, hfp⟩
    rcases Option.map_eq_some'.mp hp with ⟨a, ha, hpa⟩
    subst hpa
    cases a with
    | receiver r m => simp [declOf] at hfp
    | typed pat2 ty2 =>
      cases pat2 with
      | ident br mu n =>
        by_cases hn : (n == "self") = true
        · simp [declOf, hn] at hfp
        · simp [declOf, hn] at hfp
      | tuple ns =>
        simp only [declOf] at hfp
        have h2 := hfp
        injection h2 with hpeq hveq
        injection hveq with hname
        have := positional_arg_inj hname
        omega
      | wild =>
        simp only [declOf] at hfp
        have h2 := hfp
        injection h2 with hpeq hveq
        injection hveq with hname
        have := positional_arg_inj hname
        omega
  · refine ⟨if hasSelfParamIn sig.inputs then block.stmts.map replaceSelfStmt
      else block.stmts, ?_, ?_⟩
    · rw [transform_block_nonstub sig block hstub]
    · cases hh : hasSelfParamIn sig.inputs <;> simp [hh]

/-- Claim C6, witness: for `async fn dup(&self, (a, b): AB)` with body
`a`, the placeholder `__arg1` appears in the transformed signature at
index 1, and exactly one declaration of the generated body destructures it
back into `(a, b)`. -/
theorem c6_witness :
    (∃ ty1, (transform_sig (Context.traitCtx [] []) (dupSig "f1") true false false).inputs.get?
        1 = some (FnArg.typed (Pat.ident false false (positional_arg 1)) ty1)) ∧
    (((enumFrom 0 (dupSig "f1").inputs).map fun p => declOf p.1 p.2).get? 1 =
      some (Stmt.letPat (Pat.tuple ["a", "b"]) (Expr.var (positional_arg 1)))) ∧
    (∀ j, (((enumFrom 0 (dupSig "f1").inputs).map fun p => declOf p.1 p.2).get? j =
        some (Stmt.letPat (Pat.tuple ["a", "b"]) (Expr.var (positional_arg 1)))) → j = 1) ∧
    (∃ tail, (transform_block (dupSig "f1") { stmts := [Stmt.original ["a"]] }).stmts =
        [Stmt.exprStmt [] (Expr.boxPinAsyncMove [
          Stmt.letIdent false "__ret" (some unitTy)
            (some (Expr.blockExpr (((enumFrom 0 (dupSig "f1").inputs).map
                fun p => declOf p.1 p.2)
              ++ [Stmt.letIdent false "__async_trait" (some unitTy) none] ++ tail))),
          Stmt.exprStmt ["allow(unreachable_code)"] (Expr.var "__ret")])] ∧
      tail.length = 1) :=
  c6_theorem (Context.traitCtx [] []) (dupSig "f1") { stmts := [Stmt.original ["a"]] }
    true false false [FnArg.receiver (some none) false] [] (Pat.tuple ["a", "b"])
    (Ty.path0 "AB" []) rfl rfl rfl

/-- Claim C10: for a non-stub body the generated block is a single
`Box::pin(async move { … })` statement in which the async block binds
`__ret`, annotated with the recorded output type, to a braced block whose
statements are exactly the parameter re-binding declarations in parameter
order, then the uninitialized unit-typed binding `let __async_trait: ();`,
then the original statements (self-rewritten when a receiver is present,
preserving their number and order), and returns `__ret` under the
`allow(unreachable_code)` attribute. -/
theorem c10_theorem (sig : Signature) (block : Block)
    (hstub : isStubBody block.stmts = false) :
    ∃ tail,
      (transform_block sig block).stmts = [Stmt.exprStmt [] (Expr.boxPinAsyncMove [
        Stmt.letIdent false "__ret"
          (some (match sig.output with | none => unitTy | some t => t))
          (some (Expr.blockExpr (((enumFrom 0 sig.inputs).map fun p => declOf p.1 p.2)
            ++ [Stmt.letIdent false "__async_trait" (some unitTy) none] ++ tail))),
        Stmt.exprStmt ["allow(unreachable_code)"] (Expr.var "__ret")])] ∧
      tail.length = block.stmts.length ∧
      (hasSelfParamIn sig.inputs = false → tail = block.stmts) ∧
      (hasSelfParamIn sig.inputs = true → tail = block.stmts.map replaceSelfStmt) := by
  refine ⟨if hasSelfParamIn sig.inputs then block.stmts.map replaceSelfStmt else block.stmts,
    ?_, ?_, ?_, ?_⟩
  · rw [transform_block_nonstub sig block hstub]
  · cases hh : hasSelfParamIn sig.inputs <;> simp [hh]
  · intro h; simp [h]
  · intro h; simp [h]

/-- Claim C10, witness: for `async fn get(&self) -> i32` with body `self`,
the generated async block re-binds the receiver, declares
`let __async_trait: ();`, and ends with the rewritten original statement. -/
theorem c10_witness :
    ∃ tail,
      (transform_block getSig { stmts := [Stmt.original ["self"]] }).stmts =
        [Stmt.exprStmt [] (Expr.boxPinAsyncMove [
          Stmt.letIdent false "__ret" (some (Ty.path0 "i32" []))
            (some (Expr.blockExpr ([Stmt.letIdent false "__self" none (some (Expr.var "self"))]
              ++ [Stmt.letIdent false "__async_trait" (some unitTy) none] ++ tail))),
          Stmt.exprStmt ["allow(unreachable_code)"] (Expr.var "__ret")])] ∧
      tail.length = 1 ∧
      (true = false → tail = [Stmt.original ["self"]]) ∧
      (true = true → tail = [Stmt.original ["__self"]]) :=
  c10_theorem getSig { stmts := [Stmt.original ["self"]] } rfl

/-- Claim C7, witness: distinct indices yield distinct placeholder names,
while the two colliding methods share the name at index 1. -/
theorem c7_witness :
    (positional_arg 2 = positional_arg 3 ↔ 2 = 3) ∧
    paramPatName (traitMethodSigAt (expand (Item.traitItem collidingTrait) false) 0) 1 =
      paramPatName (traitMethodSigAt (expand (Item.traitItem collidingTrait) false) 1) 1 :=
  ⟨(c7_theorem).1 2 3, (c7_theorem).2⟩

end AsyncTrait
